import Mathlib

/-!
Verification of the retrieval pipeline of `app.py` (document chatbot).

The development shallowly embeds the core functions of `app.py`:
`process_document` (chunking), `find_relevant_chunks` (cosine-similarity
top-k retrieval via `np.argsort(...)[-top_k:][::-1]`), `query_deepseek`
(answer synthesis against the Deepseek HTTP backend), `upload_document`
(document store creation) and `ask_question` (request handling with the
global-credential save/restore pattern).

Python strings are modelled as `List Char`; Python `len` is `List.length`;
machine floats are idealised as exact rationals (vector components) and the
induced real-valued cosine similarities, except that the `0/0` produced by
numpy on a zero-norm vector is modelled explicitly as a NaN similarity that
`np.argsort` orders after every ordinary value, which is numpy's documented
sorting behaviour for NaN.
-/

namespace App

/-- Python strings, modelled as lists of characters. -/
abbrev Str := List Char

/-- ASCII whitespace stripped by Python's `str.strip()` (space, tab, newline,
carriage return, vertical tab, form feed).  Python additionally strips some
rare Unicode space code points, which are not modelled. -/
def pyIsSpace (c : Char) : Bool :=
  c = ' ' || c = '\t' || c = '\n' || c = '\r' || c = '\x0b' || c = '\x0c'

/-- Python `s.strip()`: remove leading and trailing whitespace. -/
def pyStrip (s : Str) : Str :=
  ((s.dropWhile pyIsSpace).reverse.dropWhile pyIsSpace).reverse

/-- Python `text.split('\n')` (line 91 of `app.py`): split on every newline,
keeping empty segments; the empty string yields `[""]`. -/
def splitNl : Str → List Str
  | [] => [[]]
  | c :: cs =>
    if c = '\n' then
      [] :: splitNl cs
    else
      match splitNl cs with
      | [] => [[c]]
      | s :: ss => (c :: s) :: ss

/-- Loop body of `process_document` (lines 93-108 of `app.py`): skip segments
whose stripped length is below 5; if `len(current_chunk) + len(paragraph) > 500`
close the (stripped) current chunk and restart from the raw paragraph;
otherwise append the raw paragraph with a single separating space; finally
flush any nonempty buffer as the last (stripped) chunk. -/
def chunkLoop : List Str → Str → List Str → List Str
  | [], current_chunk, chunks =>
      chunks ++ (if current_chunk ≠ [] then [pyStrip current_chunk] else [])
  | paragraph :: ps, current_chunk, chunks =>
      if (pyStrip paragraph).length < 5 then
        chunkLoop ps current_chunk chunks
      else if current_chunk.length + paragraph.length > 500 then
        chunkLoop ps paragraph
          (chunks ++ if current_chunk ≠ [] then [pyStrip current_chunk] else [])
      else
        chunkLoop ps
          (if current_chunk = [] then paragraph else current_chunk ++ ' ' :: paragraph)
          chunks

/-- Chunking part of `process_document` (lines 88-108 of `app.py`). -/
def process_document_chunks (text : Str) : List Str :=
  chunkLoop (splitNl text) [] []

/-- Reference accumulation algorithm in the spec's words (§4.1): the qualifying
segments (stripped length at least 5) are accumulated into a running buffer;
whenever appending the next segment would make the buffer overflow — the
literal upstream comparison `len(buffer) + len(segment) > 500`, per the spec's
§9 note pinning the boundary to the upstream test — the buffer is closed
(stripped) as a completed chunk and the triggering segment starts the next
buffer; the nonempty final buffer is flushed as the last chunk. -/
def specAccumulate : List Str → Str → List Str
  | [], buf => if buf ≠ [] then [pyStrip buf] else []
  | s :: rest, buf =>
      if buf.length + s.length > 500 then
        (if buf ≠ [] then [pyStrip buf] else []) ++ specAccumulate rest s
      else
        specAccumulate rest (if buf = [] then s else buf ++ ' ' :: s)

/-- Reference chunker: filter the qualifying segments, then accumulate. -/
def specChunk (text : Str) : List Str :=
  specAccumulate ((splitNl text).filter (fun p => 5 ≤ (pyStrip p).length)) []

/-- Instrumented chunk loop: identical to `chunkLoop` but each emitted chunk
is paired with the number of segments accumulated into it. -/
def chunkLoopCounted : List Str → Str → ℕ → List (Str × ℕ) → List (Str × ℕ)
  | [], current_chunk, n, chunks =>
      chunks ++ (if current_chunk ≠ [] then [(pyStrip current_chunk, n)] else [])
  | paragraph :: ps, current_chunk, n, chunks =>
      if (pyStrip paragraph).length < 5 then
        chunkLoopCounted ps current_chunk n chunks
      else if current_chunk.length + paragraph.length > 500 then
        chunkLoopCounted ps paragraph 1
          (chunks ++ if current_chunk ≠ [] then [(pyStrip current_chunk, n)] else [])
      else if current_chunk = [] then
        chunkLoopCounted ps paragraph 1 chunks
      else
        chunkLoopCounted ps (current_chunk ++ ' ' :: paragraph) (n + 1) chunks

/-- Chunks of a text together with the number of segments each accumulates. -/
def chunksWithCounts (text : Str) : List (Str × ℕ) :=
  chunkLoopCounted (splitNl text) [] 0 []

theorem pyStrip_length_le (s : Str) : (pyStrip s).length ≤ s.length := by
  have h1 : (s.dropWhile pyIsSpace).length ≤ s.length :=
    (List.dropWhile_sublist _).length_le
  have h2 : ((s.dropWhile pyIsSpace).reverse.dropWhile pyIsSpace).length ≤
      (s.dropWhile pyIsSpace).reverse.length :=
    (List.dropWhile_sublist _).length_le
  have h3 : (s.dropWhile pyIsSpace).reverse.length = (s.dropWhile pyIsSpace).length :=
    List.length_reverse _
  simp only [pyStrip, List.length_reverse]
  omega

theorem chunkLoop_eq_specAccumulate :
    ∀ (ps : List Str) (cur : Str) (acc : List Str),
      chunkLoop ps cur acc =
        acc ++ specAccumulate (ps.filter (fun p => 5 ≤ (pyStrip p).length)) cur := by
  intro ps
  induction ps with
  | nil => intro cur acc; simp [chunkLoop, specAccumulate]
  | cons p ps ih =>
    intro cur acc
    by_cases hshort : (pyStrip p).length < 5
    · have hf : ¬ (5 ≤ (pyStrip p).length) := by omega
      simp only [chunkLoop, if_pos hshort, List.filter_cons]
      rw [ih]
      simp [hf]
    · have hf : 5 ≤ (pyStrip p).length := by omega
      simp only [chunkLoop, if_neg hshort, List.filter_cons]
      by_cases hover : cur.length + p.length > 500
      · rw [if_pos hover, ih]
        simp [hf, specAccumulate, hover, List.append_assoc]
      · rw [if_neg hover, ih]
        simp [hf, specAccumulate, hover]

theorem chunkLoopCounted_map_fst :
    ∀ (ps : List Str) (cur : Str) (n : ℕ) (acc : List (Str × ℕ)),
      (chunkLoopCounted ps cur n acc).map Prod.fst =
        chunkLoop ps cur (acc.map Prod.fst) := by
  intro ps
  induction ps with
  | nil => intro cur n acc; by_cases h : cur = [] <;> simp [chunkLoopCounted, chunkLoop, h]
  | cons p ps ih =>
    intro cur n acc
    by_cases hshort : (pyStrip p).length < 5
    · simp only [chunkLoopCounted, chunkLoop, if_pos hshort]; exact ih ..
    · by_cases hover : cur.length + p.length > 500
      · simp only [chunkLoopCounted, chunkLoop, if_neg hshort, if_pos hover]
        rw [ih]
        by_cases hcur : cur = [] <;> simp [hcur]
      · by_cases hcur : cur = []
        · simp only [chunkLoopCounted, chunkLoop, if_neg hshort, if_neg hover,
            if_pos hcur]
          exact ih ..
        · simp only [chunkLoopCounted, chunkLoop, if_neg hshort, if_neg hover,
            if_neg hcur]
          exact ih ..

theorem chunkLoopCounted_bound :
    ∀ (ps : List Str) (cur : Str) (n : ℕ) (acc : List (Str × ℕ)),
      (2 ≤ n → cur.length ≤ 501) →
      (∀ pr ∈ acc, 2 ≤ pr.2 → pr.1.length ≤ 501) →
      ∀ pr ∈ chunkLoopCounted ps cur n acc, 2 ≤ pr.2 → pr.1.length ≤ 501 := by
  intro ps
  induction ps with
  | nil =>
    intro cur n acc hcur hacc pr hpr
    simp only [chunkLoopCounted] at hpr
    rcases List.mem_append.1 hpr with h | h
    · exact hacc pr h
    · by_cases hc : cur ≠ []
      · rw [if_pos hc] at h
        simp only [List.mem_singleton] at h
        subst h
        intro hn
        exact le_trans (pyStrip_length_le cur) (hcur hn)
      · simp [hc] at h
  | cons p ps ih =>
    intro cur n acc hcur hacc pr hpr
    by_cases hshort : (pyStrip p).length < 5
    · rw [chunkLoopCounted, if_pos hshort] at hpr
      exact ih cur n acc hcur hacc pr hpr
    · by_cases hover : cur.length + p.length > 500
      · rw [chunkLoopCounted, if_neg hshort, if_pos hover] at hpr
        refine ih p 1 _ (by omega) ?_ pr hpr
        intro pr' hpr'
        rcases List.mem_append.1 hpr' with h | h
        · exact hacc pr' h
        · by_cases hc : cur ≠ []
          · rw [if_pos hc] at h
            simp only [List.mem_singleton] at h
            subst h
            intro hn
            exact le_trans (pyStrip_length_le cur) (hcur hn)
          · simp [hc] at h
      · by_cases hc : cur = []
        · rw [chunkLoopCounted, if_neg hshort, if_neg hover, if_pos hc] at hpr
          exact ih p 1 acc (by omega) hacc pr hpr
        · rw [chunkLoopCounted, if_neg hshort, if_neg hover, if_neg hc] at hpr
          refine ih _ (n + 1) acc ?_ hacc pr hpr
          intro _
          have : cur.length + p.length ≤ 500 := by omega
          simp only [List.length_append, List.length_cons]
          omega

/-- Claim C6: the chunker of `process_document` equals the reference
accumulation algorithm (filter the segments of stripped length at least 5,
accumulate with the overflow test `len(buffer) + len(segment) > 500`, close
buffers stripped, flush the nonempty final buffer); in particular the input
`"Title\n\nParagraph one text here.\nParagraph two text here.\n"` yields
exactly the single chunk
`"Title Paragraph one text here. Paragraph two text here."`. -/
theorem chunker_matches_reference :
    (∀ text : Str, process_document_chunks text = specChunk text) ∧
    process_document_chunks
        "Title\n\nParagraph one text here.\nParagraph two text here.\n".toList =
      ["Title Paragraph one text here. Paragraph two text here.".toList] := by
  constructor
  · intro text
    simpa using chunkLoop_eq_specAccumulate (splitNl text) [] []
  · decide

set_option maxRecDepth 4000 in
/-- Claim C10: every chunk built by accumulating two or more segments has
length at most 501 characters (the overflow check compares
`len(buffer) + len(segment)` against 500 but the join inserts an extra
separator space), chunks of exactly 501 characters are reachable, and the
instrumented chunker projects onto the chunker of `process_document`. -/
theorem accumulated_chunk_length_le_501 :
    (∀ text : Str, ∀ pr ∈ chunksWithCounts text, 2 ≤ pr.2 → pr.1.length ≤ 501) ∧
    (∀ text : Str, (chunksWithCounts text).map Prod.fst = process_document_chunks text) ∧
    chunksWithCounts (List.replicate 250 'a' ++ '\n' :: List.replicate 250 'b') =
      [(List.replicate 250 'a' ++ ' ' :: List.replicate 250 'b', 2)] ∧
    (List.replicate 250 'a' ++ ' ' :: List.replicate 250 'b' : Str).length = 501 := by
  refine ⟨?_, ?_, by decide, by simp⟩
  · intro text pr hpr
    exact chunkLoopCounted_bound (splitNl text) [] 0 [] (by omega) (by simp) pr hpr
  · intro text
    simpa using chunkLoopCounted_map_fst (splitNl text) [] 0 []

set_option maxRecDepth 4000 in
/-- Witness for C10 at a concrete input: the reachable 501-character chunk is
produced by accumulating two 250-character segments and meets the bound. -/
theorem accumulated_chunk_length_le_501_witness :
    (List.replicate 250 'a' ++ ' ' :: List.replicate 250 'b', 2) ∈
        chunksWithCounts (List.replicate 250 'a' ++ '\n' :: List.replicate 250 'b') ∧
    (List.replicate 250 'a' ++ ' ' :: List.replicate 250 'b' : Str).length ≤ 501 :=
  ⟨by decide,
   accumulated_chunk_length_le_501.1
     (List.replicate 250 'a' ++ '\n' :: List.replicate 250 'b')
     (List.replicate 250 'a' ++ ' ' :: List.replicate 250 'b', 2) (by decide)
     (by decide)⟩

/-- Dot product of two rational vectors (`np.dot` row-wise, line 121). -/
def dotp : List ℚ → List ℚ → ℚ
  | [], _ => 0
  | _, [] => 0
  | x :: xs, y :: ys => x * y + dotp xs ys

/-- Squared Euclidean norm; `np.linalg.norm v = Real.sqrt (normSq v)`. -/
def normSq (v : List ℚ) : ℚ := dotp v v

/-- Similarity key of one chunk vector against the question vector: the pair
`(dot(v, q), ‖v‖²)`.  The floating similarity of the code, line 121, is
`dot(v, q) / (‖v‖ * ‖q‖)`; with the shared factor `‖q‖` this key determines
it. -/
def simKeys (vecs : List (List ℚ)) (q : List ℚ) : List (ℚ × ℚ) :=
  vecs.map fun v => (dotp v q, normSq v)

/-- Comparison of two similarities by cross-multiplication, avoiding square
roots: `d1/√N1 ≤ d2/√N2` for positive `N1 N2` decided in exact rational
arithmetic by sign analysis and squaring. -/
def simle (d1 N1 d2 N2 : ℚ) : Bool :=
  if d1 ≤ 0 ∧ 0 ≤ d2 then true
  else if 0 < d1 ∧ d2 ≤ 0 then false
  else if 0 < d1 then decide (d1 ^ 2 * N2 ≤ d2 ^ 2 * N1)
  else decide (d2 ^ 2 * N1 ≤ d1 ^ 2 * N2)

/-- Comparison used by the model of `np.argsort` on the similarity array:
a similarity whose denominator `‖v‖ * ‖q‖` is zero is numpy's NaN (`0/0`,
since a rational vector of zero norm is the zero vector), and `np.argsort`
orders NaN after every ordinary value. -/
def npLe (Nq : ℚ) (a b : ℚ × ℚ) : Bool :=
  if b.2 * Nq = 0 then true
  else if a.2 * Nq = 0 then false
  else simle a.1 a.2 b.1 b.2

/-- Index comparison of the argsort model: ascending by similarity, ties by
ascending original index — the stable order numpy's argsort produces on
arrays of fewer than 17 elements, where its quicksort is an insertion
sort. -/
def argLe (Nq : ℚ) (keys : List (ℚ × ℚ)) (i j : ℕ) : Bool :=
  npLe Nq (keys.getD i (0, 0)) (keys.getD j (0, 0)) &&
    (!(npLe Nq (keys.getD j (0, 0)) (keys.getD i (0, 0))) || decide (i ≤ j))

/-- Insert an element into an ascending list, before the first element it
compares below-or-equal to. -/
def insertAsc (le : ℕ → ℕ → Bool) (i : ℕ) : List ℕ → List ℕ
  | [] => [i]
  | j :: js => if le i j then i :: j :: js else j :: insertAsc le i js

/-- Ascending insertion sort; with the linear comparison `argLe` its output
is the unique ascending arrangement, which is what `np.argsort` returns. -/
def sortAsc (le : ℕ → ℕ → Bool) : List ℕ → List ℕ
  | [] => []
  | i :: is => insertAsc le i (sortAsc le is)

/-- Model of `np.argsort(similarities)` (line 126) for arrays of at most 16
elements: the indices `0, …, n - 1` sorted ascending by similarity, NaN
last, ties by original index.  Below 17 elements numpy's default introsort
is exactly its stable insertion sort, so this tie order is the program's;
for longer arrays numpy's quicksort is not stable and its tie order is
implementation-defined, so every theorem below that depends on tie order
carries a `≤ 16` length hypothesis. -/
def argsortIdx (Nq : ℚ) (keys : List (ℚ × ℚ)) : List ℕ :=
  sortAsc (argLe Nq keys) (List.range keys.length)

/-- Python's `l[-k:]`: the last `k` elements — except that `l[-0:]` is the
whole list, since `-0 == 0`. -/
def pyLastSlice (k : ℕ) (l : List ℕ) : List ℕ :=
  if k = 0 then l else l.drop (l.length - k)

/-- The `top_indices` of `find_relevant_chunks` (line 126):
`np.argsort(similarities)[-top_k:][::-1]`. -/
def top_indices (vecs : List (List ℚ)) (q : List ℚ) (k : ℕ) : List ℕ :=
  (pyLastSlice k (argsortIdx (normSq q) (simKeys vecs q))).reverse

/-- The `relevant_chunks` list returned by `find_relevant_chunks`
(lines 128-131): the chunk texts at the selected indices.  Faithful only for
a NONEMPTY `vecs`: on an empty chunk-embedding array (shape `(0,)`) the
source's `np.dot` on line 121 raises `ValueError`; that reachable error is
modelled at the `ask_question` level, where the route's `except` handler
catches it (lines 703-705). -/
def find_relevant_chunks (chunks : List Str) (vecs : List (List ℚ))
    (q : List ℚ) (k : ℕ) : List Str :=
  (top_indices vecs q k).map fun i => chunks.getD i []

/-- Real value of a similarity key: `d / (√N * √Nq)`. -/
noncomputable def simVal (d N Nq : ℚ) : ℝ :=
  (d : ℝ) / (Real.sqrt N * Real.sqrt Nq)

/-- Cosine similarity of a chunk vector and the question vector, line 121:
`dot(v, q) / (‖v‖ * ‖q‖)`. -/
noncomputable def cosineSim (v q : List ℚ) : ℝ :=
  simVal (dotp v q) (normSq v) (normSq q)

/-- The retrieval result: the `(chunk text, relevance score)` pairs, in the
order produced by `find_relevant_chunks` (lines 128-131). -/
noncomputable def retrievedPairs (chunks : List Str) (vecs : List (List ℚ))
    (q : List ℚ) (k : ℕ) : List (Str × ℝ) :=
  (top_indices vecs q k).map fun i => (chunks.getD i [], cosineSim (vecs.getD i []) q)

theorem dotp_self_nonneg : ∀ v : List ℚ, 0 ≤ dotp v v := by
  intro v
  induction v with
  | nil => simp [dotp]
  | cons x xs ih => have := mul_self_nonneg x; simp only [dotp]; nlinarith

theorem normSq_nonneg (v : List ℚ) : 0 ≤ normSq v := dotp_self_nonneg v

theorem mem_insertAsc {le : ℕ → ℕ → Bool} {i x : ℕ} :
    ∀ {l : List ℕ}, x ∈ insertAsc le i l ↔ x = i ∨ x ∈ l := by
  intro l
  induction l with
  | nil => simp [insertAsc]
  | cons j js ih =>
    by_cases h : le i j
    · simp only [insertAsc, if_pos h, List.mem_cons]
    · simp only [insertAsc, if_neg h, List.mem_cons, ih]
      tauto

theorem insertAsc_perm (le : ℕ → ℕ → Bool) (i : ℕ) :
    ∀ l : List ℕ, List.Perm (insertAsc le i l) (i :: l) := by
  intro l
  induction l with
  | nil => simp [insertAsc]
  | cons j js ih =>
    by_cases h : le i j
    · simp [insertAsc, h]
    · simp only [insertAsc, if_neg h]
      exact (ih.cons j).trans (List.Perm.swap i j js)

theorem sortAsc_perm (le : ℕ → ℕ → Bool) :
    ∀ l : List ℕ, List.Perm (sortAsc le l) l := by
  intro l
  induction l with
  | nil => simp [sortAsc]
  | cons i is ih => exact ((insertAsc_perm le i _).trans (ih.cons i))

theorem insertAsc_pairwise {le : ℕ → ℕ → Bool}
    (total : ∀ a b, le a b = true ∨ le b a = true)
    (trans : ∀ a b c, le a b = true → le b c = true → le a c = true)
    (i : ℕ) : ∀ {l : List ℕ}, l.Pairwise (fun a b => le a b = true) →
      (insertAsc le i l).Pairwise (fun a b => le a b = true) := by
  intro l
  induction l with
  | nil => intro _; simp [insertAsc]
  | cons j js ih =>
    intro hp
    rcases List.pairwise_cons.1 hp with ⟨hj, hjs⟩
    by_cases h : le i j
    · rw [insertAsc, if_pos h]
      refine List.pairwise_cons.2 ⟨?_, hp⟩
      intro x hx
      rcases List.mem_cons.1 hx with rfl | hx
      · exact h
      · exact trans i j x h (hj x hx)
    · rw [insertAsc, if_neg h]
      refine List.pairwise_cons.2 ⟨?_, ih hjs⟩
      intro x hx
      rcases mem_insertAsc.1 hx with hxi | hx
      · rw [hxi]
        rcases total i j with h' | h'
        · exact absurd h' h
        · exact h'
      · exact hj x hx

theorem sortAsc_pairwise {le : ℕ → ℕ → Bool}
    (total : ∀ a b, le a b = true ∨ le b a = true)
    (trans : ∀ a b c, le a b = true → le b c = true → le a c = true) :
    ∀ l : List ℕ, (sortAsc le l).Pairwise (fun a b => le a b = true) := by
  intro l
  induction l with
  | nil => simp [sortAsc]
  | cons i is ih => exact insertAsc_pairwise total trans i ih

theorem simle_iff_simVal_le {d1 N1 d2 N2 Nq : ℚ}
    (hN1 : 0 < N1) (hN2 : 0 < N2) (hNq : 0 < Nq) :
    simle d1 N1 d2 N2 = true ↔ simVal d1 N1 Nq ≤ simVal d2 N2 Nq := by
  have hp1 : (0 : ℝ) < Real.sqrt N1 := Real.sqrt_pos.2 (by exact_mod_cast hN1)
  have hp2 : (0 : ℝ) < Real.sqrt N2 := Real.sqrt_pos.2 (by exact_mod_cast hN2)
  have hpq : (0 : ℝ) < Real.sqrt Nq := Real.sqrt_pos.2 (by exact_mod_cast hNq)
  have hs1 : Real.sqrt N1 ^ 2 = ((N1 : ℚ) : ℝ) := Real.sq_sqrt (by positivity)
  have hs2 : Real.sqrt N2 ^ 2 = ((N2 : ℚ) : ℝ) := Real.sq_sqrt (by positivity)
  have key : (simVal d1 N1 Nq ≤ simVal d2 N2 Nq) ↔
      (d1 : ℝ) * Real.sqrt N2 ≤ (d2 : ℝ) * Real.sqrt N1 := by
    unfold simVal
    rw [div_le_div_iff₀ (by positivity) (by positivity),
      show (d1 : ℝ) * (Real.sqrt N2 * Real.sqrt Nq) =
        ((d1 : ℝ) * Real.sqrt N2) * Real.sqrt Nq by ring,
      show (d2 : ℝ) * (Real.sqrt N1 * Real.sqrt Nq) =
        ((d2 : ℝ) * Real.sqrt N1) * Real.sqrt Nq by ring,
      mul_le_mul_right hpq]
  rw [key]
  unfold simle
  by_cases hc1 : d1 ≤ 0 ∧ 0 ≤ d2
  · rw [if_pos hc1]
    have h1 : ((d1 : ℚ) : ℝ) ≤ 0 := by exact_mod_cast hc1.1
    have h2 : (0 : ℝ) ≤ ((d2 : ℚ) : ℝ) := by exact_mod_cast hc1.2
    exact iff_of_true rfl
      (le_trans (mul_nonpos_iff.2 (Or.inr ⟨h1, hp2.le⟩)) (mul_nonneg h2 hp1.le))
  · by_cases hc2 : 0 < d1 ∧ d2 ≤ 0
    · rw [if_neg hc1, if_pos hc2]
      have h1 : (0 : ℝ) < ((d1 : ℚ) : ℝ) := by exact_mod_cast hc2.1
      have h2 : ((d2 : ℚ) : ℝ) ≤ 0 := by exact_mod_cast hc2.2
      refine iff_of_false (by simp) (not_le.2 ?_)
      exact lt_of_le_of_lt (mul_nonpos_iff.2 (Or.inr ⟨h2, hp1.le⟩)) (mul_pos h1 hp2)
    · by_cases hd1 : 0 < d1
      · have hd2 : 0 < d2 := by
          rcases lt_or_ge 0 d2 with h | h
          · exact h
          · exact absurd ⟨hd1, h⟩ hc2
        rw [if_neg hc1, if_neg hc2, if_pos hd1, decide_eq_true_eq]
        have ha : (0 : ℝ) ≤ (d1 : ℝ) * Real.sqrt N2 := by
          have : (0 : ℝ) ≤ ((d1 : ℚ) : ℝ) := by exact_mod_cast hd1.le
          exact mul_nonneg this hp2.le
        have hb : (0 : ℝ) ≤ (d2 : ℝ) * Real.sqrt N1 := by
          have : (0 : ℝ) ≤ ((d2 : ℚ) : ℝ) := by exact_mod_cast hd2.le
          exact mul_nonneg this hp1.le
        rw [← pow_le_pow_iff_left₀ ha hb (two_ne_zero), mul_pow, mul_pow, hs1, hs2]
        exact_mod_cast Iff.rfl
      · have hd1' : d1 ≤ 0 := le_of_not_lt hd1
        have hd2 : d2 < 0 := by
          rcases lt_or_ge d2 0 with h | h
          · exact h
          · exact absurd ⟨hd1', h⟩ hc1
        rw [if_neg hc1, if_neg hc2, if_neg hd1, decide_eq_true_eq]
        have ha : (0 : ℝ) ≤ -((d2 : ℝ) * Real.sqrt N1) := by
          have : ((d2 : ℚ) : ℝ) ≤ 0 := by exact_mod_cast hd2.le
          nlinarith
        have hb : (0 : ℝ) ≤ -((d1 : ℝ) * Real.sqrt N2) := by
          have : ((d1 : ℚ) : ℝ) ≤ 0 := by exact_mod_cast hd1'
          nlinarith
        rw [show ((d1 : ℝ) * Real.sqrt N2 ≤ (d2 : ℝ) * Real.sqrt N1) ↔
            (-((d2 : ℝ) * Real.sqrt N1) ≤ -((d1 : ℝ) * Real.sqrt N2)) by
          constructor <;> intro h <;> linarith]
        have e1 : (-((d2 : ℝ) * Real.sqrt N1)) ^ 2 = (d2 : ℝ) ^ 2 * ((N1 : ℚ) : ℝ) := by
          rw [neg_sq, mul_pow, hs1]
        have e2 : (-((d1 : ℝ) * Real.sqrt N2)) ^ 2 = (d1 : ℝ) ^ 2 * ((N2 : ℚ) : ℝ) := by
          rw [neg_sq, mul_pow, hs2]
        rw [← pow_le_pow_iff_left₀ ha hb (two_ne_zero), e1, e2]
        exact_mod_cast Iff.rfl

theorem simle_total {d1 N1 d2 N2 : ℚ} (hN1 : 0 < N1) (hN2 : 0 < N2) :
    simle d1 N1 d2 N2 = true ∨ simle d2 N2 d1 N1 = true := by
  rcases le_total (simVal d1 N1 1) (simVal d2 N2 1) with h | h
  · exact Or.inl ((simle_iff_simVal_le hN1 hN2 one_pos).2 h)
  · exact Or.inr ((simle_iff_simVal_le hN2 hN1 one_pos).2 h)

theorem simle_trans {d1 N1 d2 N2 d3 N3 : ℚ}
    (hN1 : 0 < N1) (hN2 : 0 < N2) (hN3 : 0 < N3)
    (h12 : simle d1 N1 d2 N2 = true) (h23 : simle d2 N2 d3 N3 = true) :
    simle d1 N1 d3 N3 = true :=
  (simle_iff_simVal_le hN1 hN3 one_pos).2
    (le_trans ((simle_iff_simVal_le hN1 hN2 one_pos).1 h12)
      ((simle_iff_simVal_le hN2 hN3 one_pos).1 h23))

theorem mul_pos_of_ne_zero {a b : ℚ} (ha : 0 ≤ a) (hb : 0 ≤ b)
    (h : a * b ≠ 0) : 0 < a ∧ 0 < b := by
  rcases mul_ne_zero_iff.1 h with ⟨ha', hb'⟩
  exact ⟨lt_of_le_of_ne ha (Ne.symm ha'), lt_of_le_of_ne hb (Ne.symm hb')⟩

theorem npLe_total {Nq : ℚ} (hNq : 0 ≤ Nq) {a b : ℚ × ℚ}
    (ha : 0 ≤ a.2) (hb : 0 ≤ b.2) :
    npLe Nq a b = true ∨ npLe Nq b a = true := by
  unfold npLe
  by_cases h2 : b.2 * Nq = 0
  · left; rw [if_pos h2]
  · by_cases h1 : a.2 * Nq = 0
    · right; rw [if_pos h1]
    · rw [if_neg h2, if_neg h1, if_neg h1, if_neg h2]
      obtain ⟨hb2, _⟩ := mul_pos_of_ne_zero hb hNq h2
      obtain ⟨ha2, _⟩ := mul_pos_of_ne_zero ha hNq h1
      exact simle_total ha2 hb2

theorem npLe_trans {Nq : ℚ} (hNq : 0 ≤ Nq) {a b c : ℚ × ℚ}
    (ha : 0 ≤ a.2) (hb : 0 ≤ b.2) (hc : 0 ≤ c.2)
    (hab : npLe Nq a b = true) (hbc : npLe Nq b c = true) :
    npLe Nq a c = true := by
  unfold npLe at hab hbc ⊢
  by_cases h3 : c.2 * Nq = 0
  · rw [if_pos h3]
  · rw [if_neg h3] at hbc ⊢
    by_cases h2 : b.2 * Nq = 0
    · rw [if_pos h2] at hbc; exact absurd hbc (by simp)
    · rw [if_neg h2] at hbc
      rw [if_neg h2] at hab
      by_cases h1 : a.2 * Nq = 0
      · rw [if_pos h1] at hab; exact absurd hab (by simp)
      · rw [if_neg h1] at hab ⊢
        obtain ⟨ha2, _⟩ := mul_pos_of_ne_zero ha hNq h1
        obtain ⟨hb2, _⟩ := mul_pos_of_ne_zero hb hNq h2
        obtain ⟨hc2, _⟩ := mul_pos_of_ne_zero hc hNq h3
        exact simle_trans ha2 hb2 hc2 hab hbc

theorem simKeys_getD_snd_nonneg (vecs : List (List ℚ)) (q : List ℚ) (i : ℕ) :
    0 ≤ ((simKeys vecs q).getD i (0, 0)).2 := by
  by_cases hi : i < (simKeys vecs q).length
  · rw [List.getD_eq_getElem _ _ hi]
    have hi' : i < vecs.length := by simpa [simKeys] using hi
    simp only [simKeys, List.getElem_map]
    exact normSq_nonneg _
  · rw [List.getD_eq_default _ _ (le_of_not_lt hi)]

theorem argLe_total (vecs : List (List ℚ)) (q : List ℚ) :
    ∀ i j, argLe (normSq q) (simKeys vecs q) i j = true ∨
      argLe (normSq q) (simKeys vecs q) j i = true := by
  intro i j
  have hNq : 0 ≤ normSq q := normSq_nonneg q
  have hij := npLe_total hNq (simKeys_getD_snd_nonneg vecs q i)
    (simKeys_getD_snd_nonneg vecs q j)
  unfold argLe
  by_cases h1 : npLe (normSq q) ((simKeys vecs q).getD i (0, 0))
      ((simKeys vecs q).getD j (0, 0)) = true
  · by_cases h2 : npLe (normSq q) ((simKeys vecs q).getD j (0, 0))
        ((simKeys vecs q).getD i (0, 0)) = true
    · rcases le_total i j with hle | hle
      · left; rw [h1, h2]; simp [hle]
      · right; rw [h2, h1]; simp [hle]
    · left; rw [h1, Bool.eq_false_iff.2 h2]; simp
  · rcases hij with h | h
    · exact absurd h h1
    · right; rw [h, Bool.eq_false_iff.2 h1]; simp

theorem argLe_trans (vecs : List (List ℚ)) (q : List ℚ) :
    ∀ i j k, argLe (normSq q) (simKeys vecs q) i j = true →
      argLe (normSq q) (simKeys vecs q) j k = true →
      argLe (normSq q) (simKeys vecs q) i k = true := by
  intro i j k hij hjk
  have hNq : 0 ≤ normSq q := normSq_nonneg q
  have hi := simKeys_getD_snd_nonneg vecs q i
  have hj := simKeys_getD_snd_nonneg vecs q j
  have hk := simKeys_getD_snd_nonneg vecs q k
  simp only [argLe, Bool.and_eq_true, Bool.or_eq_true, Bool.not_eq_true',
    decide_eq_true_eq] at hij hjk ⊢
  obtain ⟨hij1, hij2⟩ := hij
  obtain ⟨hjk1, hjk2⟩ := hjk
  refine ⟨npLe_trans hNq hi hj hk hij1 hjk1, ?_⟩
  by_cases hki : npLe (normSq q) ((simKeys vecs q).getD k (0, 0))
      ((simKeys vecs q).getD i (0, 0)) = true
  · right
    have hkj : npLe (normSq q) ((simKeys vecs q).getD k (0, 0))
        ((simKeys vecs q).getD j (0, 0)) = true :=
      npLe_trans hNq hk hi hj hki hij1
    have hji : npLe (normSq q) ((simKeys vecs q).getD j (0, 0))
        ((simKeys vecs q).getD i (0, 0)) = true :=
      npLe_trans hNq hj hk hi hjk1 hki
    have h1 : i ≤ j := by
      rcases hij2 with h | h
      · rw [h] at hji; exact absurd hji (by decide)
      · exact h
    have h2 : j ≤ k := by
      rcases hjk2 with h | h
      · rw [h] at hkj; exact absurd hkj (by decide)
      · exact h
    omega
  · left; exact Bool.eq_false_iff.2 hki

theorem argsortIdx_perm (Nq : ℚ) (keys : List (ℚ × ℚ)) :
    List.Perm (argsortIdx Nq keys) (List.range keys.length) :=
  sortAsc_perm _ _

theorem mem_argsortIdx {Nq : ℚ} {keys : List (ℚ × ℚ)} {i : ℕ} :
    i ∈ argsortIdx Nq keys ↔ i < keys.length := by
  rw [(argsortIdx_perm Nq keys).mem_iff, List.mem_range]

theorem nodup_argsortIdx (Nq : ℚ) (keys : List (ℚ × ℚ)) :
    (argsortIdx Nq keys).Nodup :=
  (argsortIdx_perm Nq keys).nodup_iff.2 (List.nodup_range _)

theorem length_argsortIdx (Nq : ℚ) (keys : List (ℚ × ℚ)) :
    (argsortIdx Nq keys).length = keys.length := by
  rw [(argsortIdx_perm Nq keys).length_eq, List.length_range]

theorem pairwise_argsortIdx (vecs : List (List ℚ)) (q : List ℚ) :
    (argsortIdx (normSq q) (simKeys vecs q)).Pairwise
      (fun a b => argLe (normSq q) (simKeys vecs q) a b = true) :=
  sortAsc_pairwise (argLe_total vecs q) (argLe_trans vecs q) _

theorem pyLastSlice_sublist (k : ℕ) (l : List ℕ) :
    List.Sublist (pyLastSlice k l) l := by
  unfold pyLastSlice
  by_cases h : k = 0
  · rw [if_pos h]
  · rw [if_neg h]; exact List.drop_sublist _ _

theorem top_indices_nodup (vecs : List (List ℚ)) (q : List ℚ) (k : ℕ) :
    (top_indices vecs q k).Nodup := by
  unfold top_indices
  rw [List.nodup_reverse]
  exact List.Nodup.sublist
    (pyLastSlice_sublist k (argsortIdx (normSq q) (simKeys vecs q)))
    (nodup_argsortIdx (normSq q) (simKeys vecs q))

theorem mem_top_indices {vecs : List (List ℚ)} {q : List ℚ} {k i : ℕ}
    (h : i ∈ top_indices vecs q k) : i < vecs.length := by
  unfold top_indices at h
  rw [List.mem_reverse] at h
  have h2 : i ∈ argsortIdx (normSq q) (simKeys vecs q) :=
    (pyLastSlice_sublist ..).subset h
  have := mem_argsortIdx.1 h2
  simpa [simKeys] using this

theorem top_indices_length (vecs : List (List ℚ)) (q : List ℚ) (k : ℕ)
    (hk : 1 ≤ k) : (top_indices vecs q k).length = min k vecs.length := by
  unfold top_indices pyLastSlice
  rw [if_neg (by omega : ¬ k = 0), List.length_reverse, List.length_drop,
    length_argsortIdx]
  have : (simKeys vecs q).length = vecs.length := by simp [simKeys]
  omega

theorem top_indices_pairwise (vecs : List (List ℚ)) (q : List ℚ) (k : ℕ) :
    (top_indices vecs q k).Pairwise
      (fun a b => argLe (normSq q) (simKeys vecs q) b a = true) := by
  unfold top_indices
  rw [List.pairwise_reverse]
  exact List.Pairwise.sublist (pyLastSlice_sublist ..) (pairwise_argsortIdx vecs q)

theorem simKeys_getD_eq {vecs : List (List ℚ)} {q : List ℚ} {i : ℕ}
    (hi : i < vecs.length) :
    (simKeys vecs q).getD i (0, 0) =
      (dotp (vecs.getD i []) q, normSq (vecs.getD i [])) := by
  have hi' : i < (simKeys vecs q).length := by simpa [simKeys] using hi
  rw [List.getD_eq_getElem _ _ hi', List.getD_eq_getElem _ _ hi]
  simp [simKeys]

theorem getD_mem_of_lt {vecs : List (List ℚ)} {i : ℕ} (hi : i < vecs.length) :
    vecs.getD i [] ∈ vecs := by
  rw [List.getD_eq_getElem _ _ hi]
  exact List.getElem_mem hi

theorem argLe_imp_real {vecs : List (List ℚ)} {q : List ℚ}
    (hq : 0 < normSq q) (hv : ∀ v ∈ vecs, 0 < normSq v)
    {a b : ℕ} (ha : a < vecs.length) (hb : b < vecs.length) (hne : a ≠ b)
    (h : argLe (normSq q) (simKeys vecs q) b a = true) :
    cosineSim (vecs.getD b []) q < cosineSim (vecs.getD a []) q ∨
      (cosineSim (vecs.getD a []) q = cosineSim (vecs.getD b []) q ∧ b < a) := by
  have hNa : 0 < normSq (vecs.getD a []) := hv _ (getD_mem_of_lt ha)
  have hNb : 0 < normSq (vecs.getD b []) := hv _ (getD_mem_of_lt hb)
  rw [argLe, simKeys_getD_eq ha, simKeys_getD_eq hb] at h
  rw [Bool.and_eq_true, Bool.or_eq_true, Bool.not_eq_true', decide_eq_true_eq] at h
  obtain ⟨h1, h2⟩ := h
  have hna : ¬ normSq (vecs.getD a []) * normSq q = 0 :=
    ne_of_gt (mul_pos hNa hq)
  have hnb : ¬ normSq (vecs.getD b []) * normSq q = 0 :=
    ne_of_gt (mul_pos hNb hq)
  rw [npLe, if_neg hna, if_neg hnb] at h1
  have hba : cosineSim (vecs.getD b []) q ≤ cosineSim (vecs.getD a []) q :=
    (simle_iff_simVal_le hNb hNa hq).1 h1
  rcases lt_or_eq_of_le hba with hlt | heq
  · exact Or.inl hlt
  · right
    refine ⟨heq.symm, ?_⟩
    have hab : simle (dotp (vecs.getD a []) q) (normSq (vecs.getD a []))
        (dotp (vecs.getD b []) q) (normSq (vecs.getD b [])) = true :=
      (simle_iff_simVal_le hNa hNb hq).2 (le_of_eq heq.symm)
    rcases h2 with h | h
    · rw [npLe, if_neg hnb, if_neg hna] at h
      rw [h] at hab
      exact absurd hab (by decide)
    · omega

/-- Example chunk texts for the retrieval scenarios. -/
def exChunks : List Str :=
  ["c0".toList, "c1".toList, "c2".toList, "c3".toList, "c4".toList]

/-- Example chunk vectors: cosine similarities against `exQ` are
`0.6, 0, 0.8, -0.6, 0.8`, with the tie between indices 2 and 4. -/
def exVecs : List (List ℚ) := [[3, 4], [0, 5], [4, 3], [-3, 4], [4, 3]]

/-- Example question vector. -/
def exQ : List ℚ := [5, 0]

/-- Claim C1 (amended): with a question vector and a NONEMPTY list of at
most 16 chunk vectors (the regime in which numpy's default argsort runs its
stable insertion sort; an empty embedding array raises, and beyond 16
elements numpy's quicksort tie order is implementation-defined), all of
nonzero norm, and `k ≥ 1`, `find_relevant_chunks` returns exactly `min k n`
`(chunk, score)` pairs, sorted by non-increasing cosine similarity; on ties
the chunk with the HIGHER original index comes first (the ascending stable
argsort is reversed), each selected index being a distinct valid chunk
index. -/
theorem retrieve_topk_sorted_desc (chunks : List Str) (vecs : List (List ℚ))
    (q : List ℚ) (k : ℕ) (hk : 1 ≤ k) (hne : vecs ≠ [])
    (hn16 : vecs.length ≤ 16)
    (hq : 0 < normSq q) (hv : ∀ v ∈ vecs, 0 < normSq v) :
    (retrievedPairs chunks vecs q k).length = min k vecs.length ∧
    (retrievedPairs chunks vecs q k).Pairwise (fun p p' => p'.2 ≤ p.2) ∧
    (top_indices vecs q k).Nodup ∧
    (∀ i ∈ top_indices vecs q k, i < vecs.length) ∧
    (top_indices vecs q k).Pairwise (fun a b =>
      cosineSim (vecs.getD b []) q < cosineSim (vecs.getD a []) q ∨
        (cosineSim (vecs.getD a []) q = cosineSim (vecs.getD b []) q ∧ b < a)) ∧
    find_relevant_chunks chunks vecs q k =
      (top_indices vecs q k).map fun i => chunks.getD i [] := by
  have hmem : ∀ i ∈ top_indices vecs q k, i < vecs.length := fun i hi =>
    mem_top_indices hi
  have hpair : (top_indices vecs q k).Pairwise (fun a b =>
      cosineSim (vecs.getD b []) q < cosineSim (vecs.getD a []) q ∨
        (cosineSim (vecs.getD a []) q = cosineSim (vecs.getD b []) q ∧ b < a)) := by
    have hne : (top_indices vecs q k).Pairwise (fun a b => a ≠ b) :=
      top_indices_nodup vecs q k
    have hcomb := (top_indices_pairwise vecs q k).and hne
    refine hcomb.imp_of_mem ?_
    intro a b hma hmb hab
    exact argLe_imp_real hq hv (hmem a hma) (hmem b hmb) hab.2 hab.1
  refine ⟨?_, ?_, top_indices_nodup vecs q k, hmem, hpair, rfl⟩
  · rw [retrievedPairs, List.length_map, top_indices_length vecs q k hk]
  · rw [retrievedPairs, List.pairwise_map]
    refine hpair.imp ?_
    intro a b hab
    rcases hab with h | h
    · exact le_of_lt h
    · exact le_of_eq h.1.symm

/-- Witness for C1 at the five-vector scenario with `k = 3`: the hypotheses
hold and the retrieval returns `min 3 5 = 3` pairs. -/
theorem retrieve_topk_sorted_desc_witness :
    (1 ≤ 3 ∧ exVecs ≠ [] ∧ exVecs.length ≤ 16 ∧ 0 < normSq exQ ∧
      ∀ v ∈ exVecs, 0 < normSq v) ∧
    (retrievedPairs exChunks exVecs exQ 3).length = min 3 exVecs.length := by
  have hq : 0 < normSq exQ := by norm_num [normSq, dotp, exQ]
  have hv : ∀ v ∈ exVecs, 0 < normSq v := by
    intro v hv
    fin_cases hv <;> norm_num [normSq, dotp]
  exact ⟨⟨by norm_num, by simp [exVecs], by simp [exVecs], hq, hv⟩,
    (retrieve_topk_sorted_desc exChunks exVecs exQ 3 (by norm_num)
      (by simp [exVecs]) (by simp [exVecs]) hq hv).1⟩

/-- Counterexample to C1 as stated: with five chunk vectors and `k = 3`,
chunks 2 and 4 have equal cosine similarity `0.8`, yet the code returns
chunk 4 BEFORE chunk 2 (the claim requires the lower original index first);
moreover with `k = 0` the Python slice `[-0:]` selects all five chunks
instead of `min 0 5 = 0`. -/
theorem retrieve_tie_order_counterexample :
    (find_relevant_chunks exChunks exVecs exQ 3 =
      ["c4".toList, "c2".toList, "c0".toList] ∧
    exVecs.getD 2 [] = exVecs.getD 4 [] ∧
    cosineSim (exVecs.getD 2 []) exQ = cosineSim (exVecs.getD 4 []) exQ) ∧
    (find_relevant_chunks exChunks exVecs exQ 0).length = 5 := by
  have hgd : exVecs.getD 2 [] = exVecs.getD 4 [] := by norm_num [exVecs]
  refine ⟨⟨?_, hgd, by rw [hgd]⟩, ?_⟩ <;>
  norm_num [find_relevant_chunks, top_indices, argsortIdx, sortAsc, insertAsc,
    argLe, npLe, simle, simKeys, normSq, dotp, pyLastSlice, exChunks, exVecs, exQ]

theorem getLast?_drop_of_lt :
    ∀ (n : ℕ) (l : List ℕ), n < l.length → (l.drop n).getLast? = l.getLast? := by
  intro n
  induction n with
  | zero => intro l _; rfl
  | succ m ih =>
    intro l h
    cases l with
    | nil => simp at h
    | cons a as =>
      rw [List.drop_succ_cons, ih as (by simpa using h)]
      cases as with
      | nil => simp at h
      | cons b bs => rw [List.getLast?_cons_cons]

theorem pairwise_rel_getLast {R : ℕ → ℕ → Prop} :
    ∀ {l : List ℕ} (hp : l.Pairwise R) (h : l ≠ []) (x : ℕ) (hx : x ∈ l),
      x = l.getLast h ∨ R x (l.getLast h) := by
  intro l
  induction l with
  | nil => intro _ h; exact absurd rfl h
  | cons a as ih =>
    intro hp h x hx
    rcases List.pairwise_cons.1 hp with ⟨ha, has⟩
    by_cases hnil : as = []
    · subst hnil
      left
      rw [List.mem_singleton] at hx
      simp [hx]
    · have hlast : (a :: as).getLast h = as.getLast hnil := List.getLast_cons hnil
      rcases List.mem_cons.1 hx with rfl | hx
      · right
        rw [hlast]
        exact ha _ (List.getLast_mem hnil)
      · rcases ih has hnil x hx with h1 | h1
        · left; rw [hlast]; exact h1
        · right; rw [hlast]; exact h1

/-- Claim C2 (amended): when some chunk vector has zero norm, the code
raises no division error (numpy turns `0/0` into NaN with only a warning),
but the NaN similarity is ordered by `np.argsort` AFTER every defined score,
so after the `[::-1]` reversal the zero-norm chunk is returned FIRST — the
opposite of the claimed minimum-score treatment. -/
theorem zero_norm_selected_first (chunks : List Str) (vecs : List (List ℚ))
    (q : List ℚ) (k : ℕ) (hk : 1 ≤ k) (hz : ∃ v ∈ vecs, normSq v = 0) :
    ∃ i, (top_indices vecs q k).head? = some i ∧ i < vecs.length ∧
      normSq (vecs.getD i []) * normSq q = 0 ∧
      (find_relevant_chunks chunks vecs q k).head? = some (chunks.getD i []) := by
  obtain ⟨v, hv, hv0⟩ := hz
  obtain ⟨z, hzlt, hzv⟩ := List.mem_iff_getElem.1 hv
  have hkeylen : (simKeys vecs q).length = vecs.length := by simp [simKeys]
  have hlen : (argsortIdx (normSq q) (simKeys vecs q)).length = vecs.length := by
    rw [length_argsortIdx, hkeylen]
  have hnil : argsortIdx (normSq q) (simKeys vecs q) ≠ [] := by
    intro h0
    rw [h0] at hlen
    simp at hlen
    omega
  obtain ⟨last, hlastq⟩ : ∃ a, (argsortIdx (normSq q) (simKeys vecs q)).getLast? = some a :=
    ⟨_, List.getLast?_eq_getLast _ hnil⟩
  have hlasteq : last = (argsortIdx (normSq q) (simKeys vecs q)).getLast hnil := by
    rw [List.getLast?_eq_getLast _ hnil] at hlastq
    exact (Option.some_inj.1 hlastq).symm
  have hlastmem : last ∈ argsortIdx (normSq q) (simKeys vecs q) := by
    rw [hlasteq]; exact List.getLast_mem hnil
  have hlastlt : last < vecs.length := by
    have := mem_argsortIdx.1 hlastmem
    omega
  -- the zero-norm index is in the argsort output
  have hzmem : z ∈ argsortIdx (normSq q) (simKeys vecs q) := mem_argsortIdx.2 (by omega)
  have hznan : ((simKeys vecs q).getD z (0, 0)).2 * normSq q = 0 := by
    rw [simKeys_getD_eq hzlt]
    have hgv : vecs.getD z [] = v := by
      rw [List.getD_eq_getElem _ _ hzlt, hzv]
    rw [hgv]
    simp [hv0]
  -- the last element of the ascending argsort has a NaN key as well
  have hlastnan : ((simKeys vecs q).getD last (0, 0)).2 * normSq q = 0 := by
    rcases pairwise_rel_getLast (pairwise_argsortIdx vecs q) hnil z hzmem with h | h
    · rw [hlasteq, ← h]; exact hznan
    · rw [← hlasteq] at h
      rw [argLe, Bool.and_eq_true] at h
      obtain ⟨h1, _⟩ := h
      by_contra hne
      rw [npLe, if_neg hne, if_pos hznan] at h1
      exact absurd h1 (by decide)
  -- the reversed slice starts with that last element
  have hhead : (top_indices vecs q k).head? = some last := by
    rw [top_indices, List.head?_reverse]
    have hslice : pyLastSlice k (argsortIdx (normSq q) (simKeys vecs q)) =
        (argsortIdx (normSq q) (simKeys vecs q)).drop
          ((argsortIdx (normSq q) (simKeys vecs q)).length - k) := by
      rw [pyLastSlice, if_neg (by omega : ¬ k = 0)]
    rw [hslice, getLast?_drop_of_lt _ _ (by omega)]
    exact hlastq
  refine ⟨last, hhead, hlastlt, ?_, ?_⟩
  · have h2 := hlastnan
    rw [simKeys_getD_eq hlastlt] at h2
    exact h2
  · rw [find_relevant_chunks, List.head?_map, hhead]
    rfl

/-- Chunk texts for the zero-norm scenario. -/
def zChunks : List Str := ["z0".toList, "z1".toList]

/-- Chunk vectors for the zero-norm scenario: index 0 is the zero vector
(NaN similarity), index 1 has cosine similarity `0.8` against `exQ`. -/
def zVecs : List (List ℚ) := [[0, 0], [4, 3]]

/-- Counterexample to C2 as stated: the zero-norm chunk 0 is selected with
`k = 1` AHEAD of chunk 1, whose similarity is defined (`0.8`), because its
NaN similarity sorts as the maximum, not the minimum. -/
theorem zero_norm_counterexample :
    find_relevant_chunks zChunks zVecs exQ 1 = ["z0".toList] ∧
    normSq (zVecs.getD 0 []) = 0 ∧ 0 < normSq (zVecs.getD 1 []) := by
  refine ⟨?_, by norm_num [zVecs, normSq, dotp], by norm_num [zVecs, normSq, dotp]⟩
  norm_num [find_relevant_chunks, top_indices, argsortIdx, sortAsc, insertAsc,
    argLe, npLe, simle, simKeys, normSq, dotp, pyLastSlice, zChunks, zVecs, exQ]

/-- Witness for C2 (amended) at the zero-norm scenario. -/
theorem zero_norm_selected_first_witness :
    (1 ≤ 1 ∧ ∃ v ∈ zVecs, normSq v = 0) ∧
    (∃ i, (top_indices zVecs exQ 1).head? = some i ∧ i < zVecs.length ∧
      normSq (zVecs.getD i []) * normSq exQ = 0 ∧
      (find_relevant_chunks zChunks zVecs exQ 1).head? =
        some (zChunks.getD i [])) := by
  have hz : ∃ v ∈ zVecs, normSq v = 0 :=
    ⟨[0, 0], by norm_num [zVecs], by norm_num [normSq, dotp]⟩
  exact ⟨⟨le_refl 1, hz⟩, zero_norm_selected_first zChunks zVecs exQ 1 (le_refl 1) hz⟩

/-- Full `process_document` (lines 88-113): chunk the text, then embed every
chunk.  The sentence-transformer encoder is an external collaborator, passed
as the function `encode`; its contract (§4.2 of the spec) is one vector per
input text. -/
def process_document (text : Str) (encode : List Str → List (List ℚ)) :
    List Str × List (List ℚ) :=
  let chunks := process_document_chunks text
  (chunks, encode chunks)

/-- The per-document record stored in `documents[document_id]`
(lines 651-656). -/
structure DocRecord where
  filename : String
  path : String
  text : Str
  chunks : List Str
deriving DecidableEq

/-- The module-level stores `documents` and `document_embeddings`
(lines 46-47), modelled as the underlying dictionaries. -/
structure Store where
  documents : String → Option DocRecord
  document_embeddings : String → Option (List (List ℚ))

/-- The store at process start: both dictionaries empty. -/
def emptyStore : Store := ⟨fun _ => none, fun _ => none⟩

/-- Result of the `upload_document` route. -/
inductive UploadResult where
  | success (document_id message : String)
  | httpError (code : ℕ) (detail : String)
deriving DecidableEq

/-- The `upload_document` route (lines 630-668) after text extraction: chunk
and embed the text, store the record and the embeddings under the fresh id,
and report success.  File I/O and `extract_text` are external collaborators;
the `except` branch (lines 662-668, which as written even contains a Python
syntax error on line 664) is unreachable here because neither the chunker
nor the encoder of this model raises. -/
def upload_document (st : Store) (document_id filename : String) (text : Str)
    (encode : List Str → List (List ℚ)) : Store × UploadResult :=
  let pd := process_document text encode
  let record : DocRecord :=
    { filename := filename
      path := "uploads/" ++ document_id ++ "_" ++ filename
      text := text
      chunks := pd.1 }
  ({ documents := fun i => if i = document_id then some record else st.documents i
     document_embeddings := fun i =>
       if i = document_id then some pd.2 else st.document_embeddings i },
   .success document_id "Documento subido correctamente")

/-- The Deepseek endpoint URL (line 40). -/
def DEEPSEEK_API_URL : String := "https://api.deepseek.com/v1/chat/completions"

/-- Python `"\n\n".join(context_chunks)` (line 139). -/
def joinBlank : List Str → Str
  | [] => []
  | [c] => c
  | c :: cs => c ++ '\n' :: '\n' :: joinBlank cs

/-- Text of the prompt template before the context block (lines 142-144). -/
def promptHead : String :=
  "Actúa como un asistente experto que responde preguntas basadas en la información proporcionada.\n    \nCONTEXTO:\n"

/-- Text of the prompt template between context and question (lines 146-153). -/
def promptMid : String :=
  "\n\nINSTRUCCIONES:\n- Responde la pregunta basándote únicamente en la información del CONTEXTO proporcionado.\n- Si la información no está en el CONTEXTO, indica honestamente que no puedes responder.\n- Sé conciso y directo en tus respuestas.\n- No inventes información.\n\nPREGUNTA: "

/-- Text of the prompt template after the question (lines 153-155). -/
def promptTail : String := "\n\nRESPUESTA:"

/-- The f-string prompt of `query_deepseek` (lines 142-155). -/
def build_prompt (question : Str) (context_chunks : List Str) : Str :=
  promptHead.toList ++ joinBlank context_chunks ++ promptMid.toList ++
    question ++ promptTail.toList

/-- The outbound request of `query_deepseek` (lines 158-176): URL, bearer
credential, fixed model name, the prompt as the single user message,
temperature `0.1`, `max_tokens` 500 — and NO timeout argument, since the
`requests.post` call on lines 172-176 passes none. -/
structure DsRequest where
  url : String
  api_key : String
  model : String
  prompt : Str
  temperature : ℚ
  max_tokens : ℕ
  timeout : Option ℚ
deriving DecidableEq

/-- Behaviour of the Deepseek backend on one request: either an HTTP
response (status code, raw body text, and the parsed
`choices[0].message.content` for a well-formed success body), or a raised
`requests` exception such as a connection error, carried as its message
(caught by the `except` on line 185). -/
inductive DsOutcome where
  | response (status_code : ℕ) (text : String) (content : String)
  | raised (msg : String)
deriving DecidableEq

/-- The error string returned when no credential is configured (line 136). -/
def missing_key_message : String := "Error: API key de Deepseek no configurada."

/-- The request `query_deepseek` builds for a given credential, question and
context chunks. -/
def dsRequest (api_key : String) (question : Str) (context_chunks : List Str) :
    DsRequest :=
  { url := DEEPSEEK_API_URL
    api_key := api_key
    model := "deepseek-chat"
    prompt := build_prompt question context_chunks
    temperature := 1 / 10
    max_tokens := 500
    timeout := none }

/-- `query_deepseek` (lines 134-186).  Besides the Python return value (the
answer string or an error string) the model returns the list of HTTP
requests issued, so that claims about network calls can be stated; the code
performs exactly one `requests.post` unless the credential check on line 135
short-circuits.  The Python `if not DEEPSEEK_API_KEY` is true exactly for
the empty string. -/
def query_deepseek (api_key : String) (question : Str)
    (context_chunks : List Str) (backend : DsRequest → DsOutcome) :
    String × List DsRequest :=
  if api_key = "" then (missing_key_message, [])
  else
    let req := dsRequest api_key question context_chunks
    (match backend req with
     | .response status_code text content =>
         if status_code = 200 then content
         else "Error al consultar la API: " ++ toString status_code ++ " - " ++ text
     | .raised msg => "Error al procesar la pregunta: " ++ msg,
     [req])

/-- The JSON body a client sends to `/ask-question/`: the widget and the
home page may include an `api_key` field (lines 518-521 and 1042-1046). -/
structure QuestionPayload where
  question : String
  document_id : String
  api_key : Option String
deriving DecidableEq

/-- The pydantic model `Question` (lines 50-52): only `question` and
`document_id` are declared. -/
structure Question where
  question : String
  document_id : String
deriving DecidableEq

/-- Parsing the request body into the pydantic `Question` model: pydantic
ignores undeclared fields, so a supplied `api_key` is dropped. -/
def parseQuestion (p : QuestionPayload) : Question :=
  { question := p.question, document_id := p.document_id }

/-- Result of the `ask_question` route. -/
inductive AskResult where
  | ok (answer : String)
  | httpError (code : ℕ) (detail : String)
deriving DecidableEq

/-- Stand-in for `str(e)` of the `ValueError` that numpy's `np.dot` raises
on an empty chunk-embedding array; the exact text depends on the embedding
dimension and is not modelled — the claims only rely on the 500 status the
route converts it to. -/
def np_dot_value_error : String := "np.dot ValueError"

/-- The `ask_question` route (lines 671-705).  Returns the HTTP result, the
value of the global `DEEPSEEK_API_KEY` after the handler finishes (the
`finally` on lines 698-700 restores `original_api_key`), and the list of
backend requests issued.  Because the pydantic `Question` model declares no
`api_key` field, `getattr(question_data, 'api_key', None)` on line 675 is
always `None`, so the save/override/restore of the global credential
(lines 689-700) never installs the client-supplied key.  The route's
`except` handler (lines 704-705) converts any exception into an
`HTTPException(500)`; the one operation in this model that raises is
`np.dot` on an empty chunk-embedding array (a state reachable by ingesting
a zero-chunk document), which raises before the credential save/swap, so
the global is untouched and no backend request is issued. -/
def ask_question (DEEPSEEK_API_KEY : String) (st : Store) (p : QuestionPayload)
    (embed_one : Str → List ℚ) (backend : DsRequest → DsOutcome) :
    AskResult × String × List DsRequest :=
  let question_data := parseQuestion p
  let api_key : Option String := none
  match st.documents question_data.document_id with
  | none => (.httpError 404 "Documento no encontrado", DEEPSEEK_API_KEY, [])
  | some record =>
      let chunk_embeddings :=
        (st.document_embeddings question_data.document_id).getD []
      if chunk_embeddings = [] then
        (.httpError 500 ("Error al procesar la pregunta: " ++ np_dot_value_error),
         DEEPSEEK_API_KEY, [])
      else
        let relevant_chunks := find_relevant_chunks record.chunks chunk_embeddings
          (embed_one question_data.question.toList) 3
        let original_api_key := DEEPSEEK_API_KEY
        let effective_key :=
          match api_key with
          | some k => if k ≠ "" then k else DEEPSEEK_API_KEY
          | none => DEEPSEEK_API_KEY
        let qr := query_deepseek effective_key question_data.question.toList
          relevant_chunks backend
        (.ok qr.1, original_api_key, qr.2)

theorem query_deepseek_calls (api_key : String) (question : Str)
    (chunks : List Str) (backend : DsRequest → DsOutcome) :
    (query_deepseek api_key question chunks backend).2 =
      if api_key = "" then [] else [dsRequest api_key question chunks] := by
  unfold query_deepseek
  by_cases hk : api_key = ""
  · rw [if_pos hk, if_pos hk]
  · rw [if_neg hk, if_neg hk]

/-- Claim C5: with no process-wide default credential (the empty string is
the falsy no-credential value of line 39 and `if not DEEPSEEK_API_KEY` on
line 135) and no usable per-request credential, `query_deepseek` returns the
missing-credential error immediately and issues NO backend request; through
the `ask_question` route, a request against a default-free process issues no
network call whatever the payload and the store's state, answering with the
missing-credential message — or 404 for an unknown document, or the 500
conversion of the `np.dot` `ValueError` for a stored zero-chunk document. -/
theorem missing_credential_short_circuit :
    (∀ (question : Str) (chunks : List Str) (backend : DsRequest → DsOutcome),
      query_deepseek "" question chunks backend = (missing_key_message, [])) ∧
    (∀ (st : Store) (p : QuestionPayload) (embed_one : Str → List ℚ)
      (backend : DsRequest → DsOutcome),
      (ask_question "" st p embed_one backend).2.2 = [] ∧
      ((ask_question "" st p embed_one backend).1 =
          .httpError 404 "Documento no encontrado" ∨
        (ask_question "" st p embed_one backend).1 =
          .httpError 500 ("Error al procesar la pregunta: " ++ np_dot_value_error) ∨
        (ask_question "" st p embed_one backend).1 = .ok missing_key_message)) := by
  refine ⟨fun question chunks backend => rfl, ?_⟩
  intro st p embed_one backend
  dsimp only [ask_question]
  cases hdoc : st.documents (parseQuestion p).document_id with
  | none => exact ⟨rfl, Or.inl rfl⟩
  | some record =>
    dsimp only
    by_cases hemb : (st.document_embeddings (parseQuestion p).document_id).getD [] = []
    · rw [if_pos hemb]
      exact ⟨rfl, Or.inr (Or.inl rfl)⟩
    · rw [if_neg hemb]
      exact ⟨rfl, Or.inr (Or.inr rfl)⟩

/-- Claim C8: on any non-200 backend response, `query_deepseek` returns (not
raises) the diagnostic string carrying the response's status code and raw
body. -/
theorem backend_error_carries_status_and_body (api_key : String) (question : Str)
    (chunks : List Str) (backend : DsRequest → DsOutcome) (hkey : api_key ≠ "")
    (status_code : ℕ) (text content : String)
    (hresp : backend (dsRequest api_key question chunks) =
      .response status_code text content)
    (hstatus : status_code ≠ 200) :
    query_deepseek api_key question chunks backend =
      ("Error al consultar la API: " ++ toString status_code ++ " - " ++ text,
       [dsRequest api_key question chunks]) := by
  simp only [query_deepseek, if_neg hkey, hresp, if_neg hstatus]

/-- Witness for C8 at the spec's scenario: backend status 500 with body
`"server error"` yields the BackendError diagnostic string, no crash. -/
theorem backend_error_witness :
    ("k" : String) ≠ "" ∧ (500 : ℕ) ≠ 200 ∧
    query_deepseek "k" ['q'] [] (fun _ => .response 500 "server error" "x") =
      ("Error al consultar la API: " ++ toString (500 : ℕ) ++ " - " ++ "server error",
       [dsRequest "k" ['q'] []]) ∧
    "Error al consultar la API: " ++ toString (500 : ℕ) ++ " - " ++ "server error" =
      "Error al consultar la API: 500 - server error" :=
  ⟨by decide, by decide,
   backend_error_carries_status_and_body "k" ['q'] []
     (fun _ => .response 500 "server error" "x") (by decide) 500 "server error" "x"
     rfl (by decide), by decide⟩

/-- Claim C9 (amended): every request `query_deepseek` issues to the
language-model backend carries NO timeout (the `requests.post` call on
lines 172-176 passes no `timeout` argument, and `requests` defaults to
waiting forever), so there is no timeout-expiry path; a transport-level
exception raised by the call is caught and returned as the
`TransportError`-style message of line 186. -/
theorem requests_issued_without_timeout (api_key : String) (question : Str)
    (chunks : List Str) (backend : DsRequest → DsOutcome) :
    (∀ r ∈ (query_deepseek api_key question chunks backend).2, r.timeout = none) ∧
    (∀ msg, api_key ≠ "" →
      backend (dsRequest api_key question chunks) = .raised msg →
      (query_deepseek api_key question chunks backend).1 =
        "Error al procesar la pregunta: " ++ msg) := by
  constructor
  · intro r hr
    rw [query_deepseek_calls] at hr
    by_cases hk : api_key = ""
    · rw [if_pos hk] at hr; simp at hr
    · rw [if_neg hk] at hr
      rw [List.mem_singleton] at hr
      rw [hr]
      rfl
  · intro msg hk hout
    simp only [query_deepseek, if_neg hk, hout]

/-- Counterexample to C9 as stated: the single request issued for a concrete
question carries no timeout at all, so no enforced timeout exists. -/
theorem no_timeout_counterexample :
    ((query_deepseek "k" ['q'] [] (fun _ => .response 200 "ok" "fine")).2.map
      (fun r => r.timeout)) = [none] := by
  rw [query_deepseek_calls]
  decide

/-- Witness for C9 (amended) at a concrete raising backend. -/
theorem requests_issued_without_timeout_witness :
    (dsRequest "k" ['q'] [] ∈
      (query_deepseek "k" ['q'] [] (fun _ => .raised "connection refused")).2) ∧
    (dsRequest "k" ['q'] []).timeout = none ∧
    ("k" : String) ≠ "" ∧
    (query_deepseek "k" ['q'] [] (fun _ => .raised "connection refused")).1 =
      "Error al procesar la pregunta: " ++ "connection refused" := by
  have hmem : dsRequest "k" ['q'] [] ∈
      (query_deepseek "k" ['q'] [] (fun _ => .raised "connection refused")).2 := by
    rw [query_deepseek_calls]
    simp
  exact ⟨hmem,
    (requests_issued_without_timeout "k" ['q'] []
      (fun _ => .raised "connection refused")).1 _ hmem,
    by decide,
    (requests_issued_without_timeout "k" ['q'] []
      (fun _ => .raised "connection refused")).2 "connection refused" (by decide) rfl⟩

/-- Claim C3 (amended): when chunking produces zero chunks — in particular
for the empty text — `upload_document` does NOT fail: it reports success and
stores a document whose chunk list and embedding list are both empty (the
entry is total, not partial: both dictionaries are populated, aligned at
length zero), leaving every other identifier untouched. -/
theorem zero_chunk_upload_succeeds (st : Store) (document_id filename : String)
    (text : Str) (encode : List Str → List (List ℚ))
    (hchunks : process_document_chunks text = [])
    (henc : ∀ ts, (encode ts).length = ts.length) :
    (upload_document st document_id filename text encode).2 =
      .success document_id "Documento subido correctamente" ∧
    (upload_document st document_id filename text encode).1.documents document_id =
      some { filename := filename
             path := "uploads/" ++ document_id ++ "_" ++ filename
             text := text
             chunks := [] } ∧
    (upload_document st document_id filename text
      encode).1.document_embeddings document_id = some [] ∧
    ∀ j, j ≠ document_id →
      (upload_document st document_id filename text encode).1.documents j =
          st.documents j ∧
      (upload_document st document_id filename text
        encode).1.document_embeddings j = st.document_embeddings j := by
  have henc0 : encode [] = [] := by
    have h0 := henc []
    simpa using List.length_eq_zero.1 (by simpa using h0)
  refine ⟨rfl, ?_, ?_, ?_⟩
  · simp [upload_document, process_document, hchunks]
  · simp [upload_document, process_document, hchunks, henc0]
  · intro j hj
    exact ⟨by simp [upload_document, if_neg hj],
      by simp [upload_document, if_neg hj]⟩

/-- Counterexample to C3 as stated: ingesting the empty text (zero chunks)
does not fail and does store a document: the store changes, gaining an
entry with an empty chunk list under the new identifier. -/
theorem empty_text_upload_counterexample :
    process_document_chunks [] = [] ∧
    (upload_document emptyStore "d1" "f.txt" []
        (fun ts => ts.map fun _ => [1])).2 =
      .success "d1" "Documento subido correctamente" ∧
    (upload_document emptyStore "d1" "f.txt" []
        (fun ts => ts.map fun _ => [1])).1.documents "d1" =
      some { filename := "f.txt", path := "uploads/d1_f.txt", text := []
             chunks := [] } ∧
    emptyStore.documents "d1" = none := by
  refine ⟨by decide, rfl, ?_, rfl⟩
  simp [upload_document, process_document, emptyStore,
    show process_document_chunks [] = [] from by decide]

/-- Witness for C3 (amended) at the empty text and a concrete encoder. -/
theorem zero_chunk_upload_succeeds_witness :
    (process_document_chunks [] = [] ∧
      ∀ ts : List Str, (ts.map fun _ => ([1] : List ℚ)).length = ts.length) ∧
    (upload_document emptyStore "d" "f" [] (fun ts => ts.map fun _ => [1])).2 =
      .success "d" "Documento subido correctamente" :=
  ⟨⟨by decide, fun ts => by simp⟩,
   (zero_chunk_upload_succeeds emptyStore "d" "f" [] (fun ts => ts.map fun _ => [1])
     (by decide) (fun ts => by simp)).1⟩

/-- Claim C7: after a successful ingestion the stored chunk list and the
stored embedding list have the same length (the encoder contract, §4.2 of
the spec, returns one vector per text), and every previously aligned entry
stays aligned — documents are never mutated, only created. -/
theorem vector_alignment (st : Store) (document_id filename : String)
    (text : Str) (encode : List Str → List (List ℚ))
    (henc : ∀ ts, (encode ts).length = ts.length) :
    ((upload_document st document_id filename text encode).1.documents
        document_id).map (fun r => r.chunks.length) =
      ((upload_document st document_id filename text
        encode).1.document_embeddings document_id).map List.length ∧
    ∀ j, (st.documents j).map (fun r => r.chunks.length) =
        (st.document_embeddings j).map List.length →
      ((upload_document st document_id filename text encode).1.documents j).map
          (fun r => r.chunks.length) =
        ((upload_document st document_id filename text
          encode).1.document_embeddings j).map List.length := by
  constructor
  · simp [upload_document, process_document, henc]
  · intro j hj
    by_cases h : j = document_id
    · subst h; simp [upload_document, process_document, henc]
    · simpa [upload_document, if_neg h] using hj

/-- Witness for C7 at a two-line text and a concrete encoder. -/
theorem vector_alignment_witness :
    (∀ ts : List Str, (ts.map fun _ => ([1] : List ℚ)).length = ts.length) ∧
    ((upload_document emptyStore "d" "f" "hello there\nsecond line".toList
        (fun ts => ts.map fun _ => [1])).1.documents "d").map
      (fun r => r.chunks.length) =
    ((upload_document emptyStore "d" "f" "hello there\nsecond line".toList
        (fun ts => ts.map fun _ => [1])).1.document_embeddings "d").map
      List.length :=
  ⟨fun ts => by simp,
   (vector_alignment emptyStore "d" "f" "hello there\nsecond line".toList
     (fun ts => ts.map fun _ => [1]) (fun ts => by simp)).1⟩

/-- Claim C4: the per-request credential is silently dropped — the pydantic
`Question` model declares no `api_key` field, so pydantic discards the
client-supplied value and `getattr(question_data, 'api_key', None)` is
always `None`: the backend call is made with the process default `B`
whatever the payload supplies, and the default remains `B` afterwards
(the save/restore of lines 689-700 never installs any override). -/
theorem per_request_credential_ignored (B : String) (st : Store)
    (p : QuestionPayload) (embed_one : Str → List ℚ)
    (backend : DsRequest → DsOutcome) :
    (ask_question B st p embed_one backend).2.1 = B ∧
    ∀ r ∈ (ask_question B st p embed_one backend).2.2, r.api_key = B := by
  dsimp only [ask_question]
  cases hdoc : st.documents (parseQuestion p).document_id with
  | none => exact ⟨rfl, by simp⟩
  | some record =>
    dsimp only
    by_cases hemb : (st.document_embeddings (parseQuestion p).document_id).getD [] = []
    · rw [if_pos hemb]
      exact ⟨rfl, by simp⟩
    · rw [if_neg hemb]
      refine ⟨rfl, ?_⟩
      intro r hr
      simp only [] at hr
      rw [query_deepseek_calls] at hr
      by_cases hB : B = ""
      · rw [if_pos hB] at hr; simp at hr
      · rw [if_neg hB] at hr
        rw [List.mem_singleton] at hr
        rw [hr]
        rfl

/-- Store holding one document `"d"` for the credential scenario. -/
def wStore : Store :=
  ⟨fun i => if i = "d" then
      some { filename := "f", path := "p", text := "hello world".toList
             chunks := ["hello world".toList] }
    else none,
   fun i => if i = "d" then some [[1, 0]] else none⟩

/-- Payload supplying the per-request credential `"A"`. -/
def wPayload : QuestionPayload :=
  { question := "q", document_id := "d", api_key := some "A" }

/-- Witness for C4: with default credential `"B"` and a payload supplying
`"A"`, the one issued request carries `"B"`, and the default is still
`"B"` afterwards. -/
theorem per_request_credential_ignored_witness :
    wPayload.api_key = some "A" ∧
    dsRequest "B" "q".toList ["hello world".toList] ∈
      (ask_question "B" wStore wPayload (fun _ => [1, 0])
        (fun _ => .response 200 "ok" "fine")).2.2 ∧
    (dsRequest "B" "q".toList ["hello world".toList]).api_key = "B" ∧
    (ask_question "B" wStore wPayload (fun _ => [1, 0])
      (fun _ => .response 200 "ok" "fine")).2.1 = "B" := by
  have hmem : dsRequest "B" "q".toList ["hello world".toList] ∈
      (ask_question "B" wStore wPayload (fun _ => [1, 0])
        (fun _ => .response 200 "ok" "fine")).2.2 := by
    dsimp only [ask_question]
    norm_num [wStore, wPayload, parseQuestion, query_deepseek_calls,
      find_relevant_chunks, top_indices, argsortIdx, sortAsc, insertAsc,
      argLe, npLe, simle, simKeys, normSq, dotp, pyLastSlice]
    decide
  refine ⟨rfl, hmem, ?_, ?_⟩
  · exact (per_request_credential_ignored "B" wStore wPayload (fun _ => [1, 0])
      (fun _ => .response 200 "ok" "fine")).2 _ hmem
  · exact (per_request_credential_ignored "B" wStore wPayload (fun _ => [1, 0])
      (fun _ => .response 200 "ok" "fine")).1

end App
